import Mathlib

/-!
Verification of the pytermgui parser core (`pytermgui/parser.py`):
the ANSI and markup tokenizers, the token model (`to_name`, `to_sequence`,
`get_setter`, `get_unsetter`), the color resolver (`_handle_color`,
`_handle_named_color`), the converters (`markup_to_ansi`, `ansi_to_markup`)
and the optimizer (`optimize_ansi`).

Strings are embedded as `List Char`; Python regular-expression scanning
(`RE_ANSI.finditer`, `RE_TAGS.finditer`) is embedded as explicit fuelled
left-to-right scanners with lazy (shortest-match) group scanning, matching
the semantics of the two concrete patterns in the source.  Python
exceptions are embedded as `Except`/error flags.
-/

set_option maxHeartbeats 1000000
set_option maxRecDepth 10000
set_option linter.unusedVariables false

abbrev Str := List Char

/-! ## Small string helpers mirroring Python primitives -/

/-- Python `text[a:b]` (for `0 ≤ a ≤ b`). -/
def pySlice (text : Str) (a b : Nat) : Str := (text.drop a).take (b - a)

/-- Python `s.endswith(suf)`. -/
def endswith (l suf : Str) : Bool := decide (suf <:+ l)

/-- Python `s.startswith(pre)` (arguments: the candidate head first). -/
def startswith : Str → Str → Bool
  | [], _ => true
  | _ :: _, [] => false
  | p :: ps, c :: cs => p = c && startswith ps cs

/-- Python `s.isdigit()` : nonempty and all digits. -/
def isdigitStr (s : Str) : Bool := !s.isEmpty && s.all Char.isDigit

/-- Python `int(s)` on a digit string. -/
def strToNat (s : Str) : Nat := s.foldl (fun a c => a * 10 + (c.toNat - 48)) 0

/-- Python `str(n)` for a natural number. -/
def natToStr (n : Nat) : Str := Nat.toDigits 10 n

/-- Python `s.split(sep)` for a single-character separator: keeps empties. -/
def splitOnChar (sep : Char) : Str → List Str
  | [] => [[]]
  | c :: cs =>
    if c = sep then [] :: splitOnChar sep cs
    else
      match splitOnChar sep cs with
      | g :: gs => (c :: g) :: gs
      | [] => [[c]]

/-- Python `sep.join(parts)` for a single-character separator. -/
def joinSep (sep : Char) : List Str → Str
  | [] => []
  | [p] => p
  | p :: q :: r => p ++ sep :: joinSep sep (q :: r)

/-- Python `s.count(c)`. -/
def countCh (c : Char) (s : Str) : Nat := (s.filter (· = c)).length

/-- Python `s.lstrip("@")`. -/
def lstripAt (s : Str) : Str := s.dropWhile (· = '@')

/-- Python `s.split()` : split on whitespace runs, dropping empties. -/
def splitWs : Str → Str → List Str
  | [], acc => if acc = [] then [] else [acc]
  | c :: cs, acc =>
    if c.isWhitespace then
      if acc = [] then splitWs cs [] else acc :: splitWs cs []
    else splitWs cs (acc ++ [c])

/-- Python `s.split()` entry point. -/
def pySplit (s : Str) : List Str := splitWs s []

/-- Python `list.index` (total on members; callers guard membership). -/
def idxOf (x : Str) : List Str → Nat
  | [] => 0
  | y :: ys => if y = x then 0 else idxOf x ys + 1

/-- Python `dict[k]` on an association list: the first matching key. -/
def lookupStr (k : Str) : List (Str × Str) → Option Str
  | [] => none
  | p :: ps => if p.1 = k then some p.2 else lookupStr k ps

/-- First `(key, value)` pair whose value equals `v` (Python
`for key, value in d.items(): if value == v: ...`). -/
def findByVal (v : Str) : List (Str × Str) → Option (Str × Str)
  | [] => none
  | p :: ps => if p.2 = v then some p else findByVal v ps

/-- `dict.get` on a name→number association list. -/
def lookupNat (k : Str) : List (Str × Nat) → Option Nat
  | [] => none
  | p :: ps => if p.1 = k then some p.2 else lookupNat k ps

/-- First `(name, number)` pair whose number equals `v`. -/
def findByNatVal (v : Nat) : List (Str × Nat) → Option (Str × Nat)
  | [] => none
  | p :: ps => if p.2 = v then some p else findByNatVal v ps

/-- Python `s.replace("[", "\\[", 1)`. -/
def escFirst : Str → Str
  | [] => []
  | c :: cs => if c = '[' then '\\' :: '[' :: cs else c :: escFirst cs

/-- Length of the maximal leading run of `c`. -/
def countLeading (c : Char) : Str → Nat
  | [] => 0
  | x :: xs => if x = c then countLeading c xs + 1 else 0

/-! ## The escape table (`NAMES`, `UNSET_MAP`) and the external color service -/

def NAMES : List Str :=
  ["/".toList, "bold".toList, "dim".toList, "italic".toList, "underline".toList,
   "blink".toList, "blink2".toList, "inverse".toList, "invisible".toList,
   "strikethrough".toList]

def UNSET_MAP : List (Str × Str) :=
  [("/bold".toList, "22".toList),
   ("/dim".toList, "22".toList),
   ("/italic".toList, "23".toList),
   ("/underline".toList, "24".toList),
   ("/blink".toList, "25".toList),
   ("/blink2".toList, "26".toList),
   ("/inverse".toList, "27".toList),
   ("/invisible".toList, "28".toList),
   ("/strikethrough".toList, "29".toList),
   ("/fg".toList, "39".toList),
   ("/bg".toList, "49".toList)]

/-- Modelled from the spec: the sequence builder `reset()` of the external
`ansi_interface` module (not under `src/`), producing the universal reset
sequence `"\x1b[0m"`. -/
def reset : Str := "\x1b[0m".toList

/-- Modelled from the spec: the external color name registry
`foreground.names` (name → palette index) with the 8 base names, palette
indices 0–7 as listed in the module documentation. -/
def foreground_names : List (Str × Nat) :=
  [("black".toList, 0), ("red".toList, 1), ("green".toList, 2),
   ("yellow".toList, 3), ("blue".toList, 4), ("magenta".toList, 5),
   ("cyan".toList, 6), ("white".toList, 7)]

/-- Hex digit value. -/
def hexVal (c : Char) : Option Nat :=
  if c.isDigit then some (c.toNat - 48)
  else if 'a' ≤ c ∧ c ≤ 'f' then some (c.toNat - 87)
  else if 'A' ≤ c ∧ c ≤ 'F' then some (c.toNat - 55)
  else none

/-- Modelled from the spec: the external hex translator
`foreground.translate_hex`, mapping `"#RRGGBB"` to an `(r, g, b)` triplet of
bytes and failing on malformed input. -/
def translate_hex (s : Str) : Option (Nat × Nat × Nat) :=
  match s with
  | h :: [a, b, c, d, e, f] =>
    if h = '#' then
      match hexVal a, hexVal b, hexVal c, hexVal d, hexVal e, hexVal f with
      | some va, some vb, some vc, some vd, some ve, some vf =>
        some (va * 16 + vb, vc * 16 + vd, ve * 16 + vf)
      | _, _, _, _, _, _ => none
    else none
  | _ => none

/-! ## Errors (Python exceptions) -/

inductive PErr where
  /-- `SyntaxError` from `_handle_color`: hex tag could not be translated;
  carries the tag (after any `@` strip). -/
  | hexFail (tag : Str)
  /-- `SyntaxError` from `tokenize_markup`: unrecognized markup tag; carries
  the offending tag and the full source string. -/
  | badTag (tag text : Str)
  /-- `SyntaxError` from `to_name`: fewer than 3 `;`-separated parts. -/
  | malformedCode
  /-- `SyntaxError` from `to_name`: non-digit color component. -/
  | nonDigitColor
  /-- `IndexError` from `NAMES[index]` in `to_name`. -/
  | idxErr
  /-- `KeyError` (dict lookup misses, and the explicit raise in
  `get_unsetter`). -/
  | keyErr
  /-- `ValueError` from `get_setter`. -/
  | valErr
  /-- `AssertionError` (`assert self.code is not None`). -/
  | assertErr
  /-- `AttributeError`: `sgr.startswith` on `None` when an OSC-style
  sequence matches in `tokenize_ansi`. -/
  | attrErr
deriving DecidableEq

/-! ## Token model -/

inductive TokenAttribute where
  | CLEAR | COLOR | STYLE | ESCAPED | BACKGROUND_COLOR
deriving DecidableEq

structure Token where
  start : Nat
  stop : Nat
  plain : Option Str := none
  code : Option Str := none
  attr : Option TokenAttribute := none
deriving DecidableEq

/-- `Token.to_name`. -/
def to_name (t : Token) : Except PErr Str :=
  match t.plain with
  | some p => .ok p
  | none =>
    match t.code with
    | none => .error .assertErr
    | some code =>
      if isdigitStr code then
        match findByVal code UNSET_MAP with
        | some p => .ok p.1
        | none =>
          let index := strToNat code
          if index < NAMES.length then .ok (NAMES.getD index [])
          else .error .idxErr
      else
        let numbers := splitOnChar ';' code
        let out : Str := if numbers.head? = some ("48".toList) then "@".toList else []
        if numbers.length < 3 then .error .malformedCode
        else if !numbers.all isdigitStr then .error .nonDigitColor
        else
          let simple := strToNat (numbers.getD 2 [])
          if numbers.length = 3 then
            match findByNatVal simple foreground_names with
            | some p => .ok (out ++ p.1)
            | none => .ok (out ++ joinSep ';' (numbers.drop 2))
          else .ok (out ++ joinSep ';' (numbers.drop 2))

/-- `Token.to_sequence`. -/
def to_sequence (t : Token) : Str :=
  match t.code with
  | some c => '\x1b' :: '[' :: (c ++ ['m'])
  | none => t.plain.getD []

/-- `Token.get_unsetter`. -/
def get_unsetter (t : Token) : Except PErr (Option Str) :=
  match t.plain with
  | some _ => .ok none
  | none =>
    if t.attr = some .CLEAR then
      match to_name t with
      | .error e => .error e
      | .ok nm =>
        match lookupStr nm UNSET_MAP with
        | some v => .ok (some v)
        | none => .error .keyErr
    else if t.attr = some .COLOR then .ok (lookupStr ("/fg".toList) UNSET_MAP)
    else if t.attr = some .BACKGROUND_COLOR then .ok (lookupStr ("/bg".toList) UNSET_MAP)
    else
      match to_name t with
      | .error e => .error e
      | .ok nm =>
        match lookupStr ('/' :: nm) UNSET_MAP with
        | some v => .ok (some v)
        | none => .error .keyErr

/-- `Token.get_setter`. -/
def get_setter (t : Token) : Except PErr (Option Str) :=
  if t.plain.isSome ∨ ¬ t.attr = some .CLEAR then .ok none
  else if t.code = some ("0".toList) then .ok none
  else
    match to_name t with
    | .error e => .error e
    | .ok nm =>
      if nm = "/fg".toList ∨ nm = "/bg".toList then .ok none
      else
        let name := nm.drop 1
        if name ∈ NAMES then .ok (some (natToStr (idxOf name NAMES)))
        else .error .valErr

/-! ## The ANSI scanner: `RE_ANSI.finditer`

`RE_ANSI = (?:\x1b\[(.*?)m)|(?:\x1b\](.*?)\x1b\\)`.  `.` does not match a
newline; the lazy groups take the shortest match; `finditer` scans left to
right, restarting after each (nonempty) match. -/

/-- Lazy scan of `(.*?)m`: the shortest newline-free prefix followed by
`m`.  Returns the group and the number of characters consumed (group plus
the final `m`). -/
def scanSgr : Str → Option (Str × Nat)
  | [] => none
  | c :: cs =>
    if c = 'm' then some ([], 1)
    else if c = '\n' then none
    else
      match scanSgr cs with
      | some (g, n) => some (c :: g, n + 1)
      | none => none

/-- Lazy scan of `(.*?)\x1b\\`: the shortest newline-free prefix followed
by `ESC \`. -/
def scanOsc : Str → Option (Str × Nat)
  | [] => none
  | [_] => none
  | c1 :: c2 :: cs =>
    if c1 = '\x1b' ∧ c2 = '\\' then some ([], 2)
    else if c1 = '\n' then none
    else
      match scanOsc (c2 :: cs) with
      | some (g, n) => some (c1 :: g, n + 1)
      | none => none

/-- Attempt an `RE_ANSI` match at the head of `s`: returns the SGR group,
the OSC group, and the total match length. -/
def matchAnsiAt (s : Str) : Option (Option Str × Option Str × Nat) :=
  match s with
  | c1 :: c2 :: rest =>
    if c1 = '\x1b' then
      if c2 = '[' then (scanSgr rest).map (fun p => (some p.1, none, p.2 + 2))
      else if c2 = ']' then (scanOsc rest).map (fun p => (none, some p.1, p.2 + 2))
      else none
    else none
  | _ => none

structure AnsiMatch where
  start : Nat
  stop : Nat
  sgr : Option Str
  osc : Option Str
deriving DecidableEq

/-- The `finditer` loop: try a match at each position, restart after each
match.  Fuelled for structural recursion; fuel `≥` length never runs out. -/
def findAnsiMatchesF : Nat → Str → Nat → List AnsiMatch
  | 0, _, _ => []
  | _ + 1, [], _ => []
  | fuel + 1, c :: cs, i =>
    match matchAnsiAt (c :: cs) with
    | some (sgr, osc, len) =>
      ⟨i, i + len, sgr, osc⟩ :: findAnsiMatchesF fuel (cs.drop (len - 1)) (i + len)
    | none => findAnsiMatchesF fuel cs (i + 1)

def findAnsiMatches (text : Str) : List AnsiMatch :=
  findAnsiMatchesF text.length text 0

/-- SGR payload classification in `tokenize_ansi`. -/
def ansiAttr (sgr : Str) : Option TokenAttribute :=
  if startswith ("38;".toList) sgr then some .COLOR
  else if startswith ("48;".toList) sgr then some .BACKGROUND_COLOR
  else if sgr = "0".toList then some .CLEAR
  else if isdigitStr sgr ∧ strToNat sgr < NAMES.length then some .STYLE
  else if (findByVal sgr UNSET_MAP).isSome then some .CLEAR
  else none

/-- The `tokenize_ansi` loop over the regex matches.  State: `pos` is
`position`, `s`/`e` are the `start`/`end` variables (span of the last
match), `prev` the `previous` token.  On an OSC-style match the group
`sgr` is `None` and `sgr.startswith` raises; tokens yielded before the
raise are kept, with the error flagged. -/
def tokAnsiAux (text : Str) : List AnsiMatch → Nat → Nat → Nat → Option Token →
    List Token × Option PErr
  | [], pos, s, e, _ =>
    (if pos < text.length then
      [{ start := s, stop := e, plain := some (pySlice text pos text.length) }]
     else [], none)
  | m :: ms, pos, _, _, prev =>
    if pos < m.start then
      let pt : Token := { start := m.start, stop := m.stop, plain := some (pySlice text pos m.start) }
      match m.sgr with
      | none => ([pt], some .attrErr)
      | some sgr =>
        let tok : Token := { start := m.start, stop := m.stop, code := some sgr, attr := ansiAttr sgr }
        let r := tokAnsiAux text ms m.stop m.start m.stop (some tok)
        (pt :: tok :: r.1, r.2)
    else
      match m.sgr with
      | none => ([], some .attrErr)
      | some sgr =>
        let tok : Token := { start := m.start, stop := m.stop, code := some sgr, attr := ansiAttr sgr }
        match prev with
        | some p =>
          if p.code = some sgr then
            let r := tokAnsiAux text ms m.stop m.start m.stop prev
            (r.1, r.2)
          else
            let r := tokAnsiAux text ms m.stop m.start m.stop (some tok)
            (tok :: r.1, r.2)
        | none =>
          let r := tokAnsiAux text ms m.stop m.start m.stop (some tok)
          (tok :: r.1, r.2)

/-- `tokenize_ansi`: the yielded tokens, and the pending exception if the
generator raises (OSC-style match). -/
def tokenize_ansi (text : Str) : List Token × Option PErr :=
  tokAnsiAux text (findAnsiMatches text) 0 0 0 none

/-! ## The markup scanner: `RE_TAGS.finditer`

`RE_TAGS = ((\\*)\[([a-z0-9!#@\/].*?)\])` (VERBOSE): a greedy run of
backslashes, `[`, a first character from the class, a lazy newline-free
body, `]`. -/

/-- First-character class `[a-z0-9!#@/]`. -/
def tagStartChar (c : Char) : Bool :=
  (97 ≤ c.toNat && c.toNat ≤ 122) || c.isDigit || c = '!' || c = '#' || c = '@' || c = '/'

/-- Lazy scan of `(.*?)\]`: shortest newline-free prefix followed by `]`. -/
def scanBody : Str → Option (Str × Nat)
  | [] => none
  | c :: cs =>
    if c = ']' then some ([], 1)
    else if c = '\n' then none
    else
      match scanBody cs with
      | some (g, n) => some (c :: g, n + 1)
      | none => none

/-- Attempt an `RE_TAGS` match at the head of `s`: returns the number of
escape backslashes, the tag body (group 3), and the total match length. -/
def matchTagsAt (s : Str) : Option (Nat × Str × Nat) :=
  let k := countLeading '\\' s
  match s.drop k with
  | b :: c :: rest =>
    if b = '[' ∧ tagStartChar c then
      match scanBody rest with
      | some (g, n) => some (k, c :: g, k + 2 + n)
      | none => none
    else none
  | _ => none

structure TagMatch where
  start : Nat
  stop : Nat
  escapes : Nat
  body : Str
deriving DecidableEq

def findTagMatchesF : Nat → Str → Nat → List TagMatch
  | 0, _, _ => []
  | _ + 1, [], _ => []
  | fuel + 1, c :: cs, i =>
    match matchTagsAt (c :: cs) with
    | some (k, body, len) =>
      ⟨i, i + len, k, body⟩ :: findTagMatchesF fuel (cs.drop (len - 1)) (i + len)
    | none => findTagMatchesF fuel cs (i + 1)

def findTagMatches (text : Str) : List TagMatch :=
  findTagMatchesF text.length text 0

/-! ## The color resolver -/

/-- Color-candidate character: `char.isdigit() or char.lower() in "#;@abcdef"`. -/
def isColorChar (c : Char) : Bool :=
  c.isDigit || decide (c.toLower ∈ "#;@abcdef".toList)

/-- `_handle_color`. -/
def _handle_color (tag : Str) : Except PErr (Option (Str × Bool)) :=
  if !tag.all isColorChar then .ok none
  else
    let bg := tag.head? = some '@'
    let pretext : Str := if bg then "48;".toList else "38;".toList
    let tag1 := if bg then tag.drop 1 else tag
    let hexcolor := tag1.head? = some '#'
    let color_pre : Str := if countCh ';' tag1 < 2 ∧ ¬ hexcolor then "5;".toList else "2;".toList
    if hexcolor then
      match translate_hex tag1 with
      | some (r, g, b) =>
        .ok (some (pretext ++ color_pre ++ joinSep ';' [natToStr r, natToStr g, natToStr b], bg))
      | none => .error (.hexFail tag1)
    else .ok (some (pretext ++ color_pre ++ tag1, bg))

/-- `_handle_named_color`. -/
def _handle_named_color (tag : Str) : Except PErr (Option (Str × Bool)) :=
  if (lookupNat (lstripAt tag) foreground_names).isNone then .ok none
  else
    let background : Str := if tag.head? = some '@' then "@".toList else []
    let tag1 := if tag.head? = some '@' then tag.drop 1 else tag
    match lookupNat tag1 foreground_names with
    | none => .error .keyErr
    | some v => _handle_color (background ++ natToStr v)

/-! ## `tokenize_markup` -/

/-- Handle one whitespace-separated tag word of a markup bracket. -/
def handleTag (s e : Nat) (text : Str) (tag : Str) : Except PErr Token :=
  if tag ∈ NAMES then
    .ok { start := s, stop := e, code := some (natToStr (idxOf tag NAMES)),
          attr := some (if tag = "/".toList then .CLEAR else .STYLE) }
  else
    match lookupStr tag UNSET_MAP with
    | some v => .ok { start := s, stop := e, code := some v, attr := some .CLEAR }
    | none =>
      match _handle_named_color tag with
      | .error er => .error er
      | .ok (some (code, background)) =>
        .ok { start := s, stop := e, code := some code,
              attr := some (if background then .BACKGROUND_COLOR else .COLOR) }
      | .ok none =>
        match _handle_color tag with
        | .error er => .error er
        | .ok (some (color, background)) =>
          .ok { start := s, stop := e, code := some color,
                attr := some (if background then .BACKGROUND_COLOR else .COLOR) }
        | .ok none => .error (.badTag tag text)

/-- Process the words of one bracket in order, stopping at the first
raising word (earlier word tokens were already yielded). -/
def processWords (s e : Nat) (text : Str) : List Str → List Token × Option PErr
  | [] => ([], none)
  | w :: ws =>
    match handleTag s e text w with
    | .ok t =>
      let r := processWords s e text ws
      (t :: r.1, r.2)
    | .error er => ([], some er)

/-- The `tokenize_markup` loop over the regex matches. -/
def tokMarkupAux (text : Str) : List TagMatch → Nat → Nat → Nat → List Token × Option PErr
  | [], pos, s, e =>
    (if pos < text.length then
      [{ start := s, stop := e, plain := some (pySlice text pos text.length) }]
     else [], none)
  | m :: ms, pos, _, _ =>
    let pre : List Token :=
      if pos < m.start then
        [{ start := m.start, stop := m.stop, plain := some (pySlice text pos m.start) }]
      else []
    if m.escapes ≠ 0 then
      let tk : Token := { start := m.start, stop := m.stop,
                          plain := some ('[' :: m.body ++ [']']), attr := some .ESCAPED }
      let r := tokMarkupAux text ms m.stop m.start m.stop
      (pre ++ tk :: r.1, r.2)
    else
      let w := processWords m.start m.stop text (pySplit m.body)
      match w.2 with
      | some er => (pre ++ w.1, some er)
      | none =>
        let r := tokMarkupAux text ms m.stop m.start m.stop
        (pre ++ w.1 ++ r.1, r.2)

/-- `tokenize_markup`. -/
def tokenize_markup (text : Str) : List Token × Option PErr :=
  tokMarkupAux text (findTagMatches text) 0 0 0

/-! ## Optimizer and converters -/

structure OptState where
  out : Str
  sequence : Str
  previous_sequence : Option Str
deriving DecidableEq

/-- One iteration of the `optimize_ansi` token loop. -/
def optimizeStep (st : OptState) (t : Token) : OptState :=
  match t.code with
  | some code =>
    if code = "0".toList then
      if st.sequence = [] then { st with sequence := [] }
      else { st with out := st.out ++ reset, sequence := [] }
    else { st with sequence := st.sequence ++ to_sequence t }
  | none =>
    if st.previous_sequence = some st.sequence then
      { st with out := st.out ++ t.plain.getD [], sequence := [] }
    else
      { out := st.out ++ st.sequence ++ t.plain.getD [], sequence := [],
        previous_sequence := some st.sequence }

/-- `optimize_ansi`. -/
def optimize_ansi (ansi : Str) : Except PErr Str :=
  match tokenize_ansi ansi with
  | (_, some e) => .error e
  | (toks, none) =>
    let st := toks.foldl optimizeStep { out := [], sequence := [], previous_sequence := none }
    .ok (if endswith st.out reset then st.out else st.out ++ reset)

/-- `markup_to_ansi`. -/
def markup_to_ansi (markup : Str) (ensure_reset : Bool := true)
    (ensure_optimized : Bool := true) : Except PErr Str :=
  match tokenize_markup markup with
  | (_, some e) => .error e
  | (toks, none) =>
    let ansi := toks.foldl (fun acc t => acc ++ to_sequence t) ([] : Str)
    let ansi1 := if ensure_reset && !endswith ansi reset then ansi ++ reset else ansi
    if ensure_optimized then optimize_ansi ansi1 else .ok ansi1

/-- The `ansi_to_markup` token loop.  State: the accumulated markup, the
`in_attr` flag, and the open `current_bracket`. -/
def a2mAux : List Token → Str → Bool → List Str → Except PErr (Str × Bool × List Str)
  | [], markup, in_attr, bracket => .ok (markup, in_attr, bracket)
  | t :: ts, markup, in_attr, bracket =>
    match t.code with
    | some code =>
      if code = "0".toList then
        a2mAux ts markup true (if markup ≠ [] then ["/".toList] else [])
      else
        match to_name t with
        | .error e => .error e
        | .ok nm => a2mAux ts markup true (bracket ++ [nm])
    | none =>
      let flush := in_attr ∧ bracket ≠ []
      let markup1 := if flush then markup ++ '[' :: joinSep ' ' bracket ++ [']'] else markup
      let bracket1 := if flush then [] else bracket
      match to_name t with
      | .error e => .error e
      | .ok nm => a2mAux ts (markup1 ++ escFirst nm) in_attr bracket1

/-- `ansi_to_markup` (the `no_duplicates` parameter is accepted and, as in
the source, unused). -/
def ansi_to_markup (ansi : Str) (no_duplicates : Bool := false)
    (ensure_reset : Bool := true) : Except PErr Str :=
  let ansi1 := if ensure_reset && !endswith ansi reset then ansi ++ reset else ansi
  match tokenize_ansi ansi1 with
  | (_, some e) => .error e
  | (toks, none) =>
    match a2mAux toks [] false [] with
    | .error e => .error e
    | .ok (markup, _, bracket) =>
      .ok (if bracket ≠ [] then markup ++ '[' :: joinSep ' ' bracket ++ [']'] else markup)

deriving instance DecidableEq for Except

/-! ## Word classification for `tokenize_markup` (used in the statements
about unrecognized tags) -/

/-- A markup tag word that one of the four interpretations accepts
(style name, unset key, named color, numeric/hex color). -/
def wordOkB (w : Str) : Bool :=
  decide (w ∈ NAMES) || (lookupStr w UNSET_MAP).isSome ||
    (match _handle_named_color w with | .ok (some _) => true | _ => false) ||
    (match _handle_named_color w, _handle_color w with
     | .ok none, .ok (some _) => true | _, _ => false)

/-- A markup tag word that matches no style name, no `UNSET_MAP` key, no
named color, and no numeric/hex color grammar (color resolution returns
"not a color" without raising). -/
def unrecWordB (w : Str) : Bool :=
  decide (¬ w ∈ NAMES) && (lookupStr w UNSET_MAP).isNone &&
    decide (_handle_named_color w = .ok none) && decide (_handle_color w = .ok none)

/-! ## Basic lemmas -/

theorem endswith_append_self (l suf : Str) : endswith (l ++ suf) suf = true := by
  simp only [endswith, decide_eq_true_eq]
  exact List.suffix_append l suf

theorem endswith_true_suffix {l suf : Str} (h : endswith l suf = true) : suf <:+ l := by
  simpa [endswith] using h

/-! ## C5: the concrete round-trip scenarios -/

/-- C5: `markup_to_ansi("[bold]hi[/]")` with default arguments returns
exactly `"\x1b[1mhi\x1b[0m"`, and `ansi_to_markup("\x1b[1mhi\x1b[0m")`
with default arguments returns exactly `"[bold]hi[/]"`. -/
theorem C5_concrete_roundtrip :
    markup_to_ansi ("[bold]hi[/]".toList) = .ok ("\x1b[1mhi\x1b[0m".toList) ∧
    ansi_to_markup ("\x1b[1mhi\x1b[0m".toList) = .ok ("[bold]hi[/]".toList) :=
  ⟨rfl, rfl⟩

/-! ## C6: escape preservation -/

/-- C6: `tokenize_markup` on one backslash followed by `"[bold]"` yields
exactly one `Plain` token with attribute `Escaped` and text `"[bold]"`
(escape marker removed); no `Style` token is produced. -/
theorem C6_escape_preservation :
    tokenize_markup ("\\[bold]".toList) =
      ([{ start := 0, stop := 7, plain := some ("[bold]".toList), code := none,
          attr := some .ESCAPED }], none) :=
  rfl

/-! ## C10: `get_unsetter` on the universal reset token -/

/-- C10: on a `Clear`-attributed `Code` token with code `"0"`,
`to_name` returns `"/"`, `"/"` is not a key of `UNSET_MAP`, and
`get_unsetter` raises a `KeyError` (rather than returning a code or
`None`). -/
theorem C10_get_unsetter_reset_keyerror (s e : Nat) :
    to_name { start := s, stop := e, code := some ("0".toList), attr := some .CLEAR } =
      .ok ("/".toList) ∧
    lookupStr ("/".toList) UNSET_MAP = none ∧
    get_unsetter { start := s, stop := e, code := some ("0".toList), attr := some .CLEAR } =
      .error .keyErr :=
  ⟨rfl, rfl, rfl⟩

/-! ## C1 (counterexample): `optimize_ansi` is not idempotent -/

/-- C1 counterexample: on `"\x1b[1m\x1b[0mhi"` the optimizer emits a
reset before `hi`; a second pass drops that no-op reset, so
`optimize_ansi (optimize_ansi x) ≠ optimize_ansi x`. -/
theorem C1_counterexample :
    optimize_ansi ("\x1b[1m\x1b[0mhi".toList) = .ok ("\x1b[0mhi\x1b[0m".toList) ∧
    optimize_ansi ("\x1b[0mhi\x1b[0m".toList) = .ok ("hi\x1b[0m".toList) ∧
    ("hi\x1b[0m".toList : Str) ≠ "\x1b[0mhi\x1b[0m".toList :=
  ⟨rfl, rfl, by decide⟩

/-! ## C7 (counterexample): a malformed hex word can pre-empt the
unrecognized-tag error -/

/-- C7 counterexample: `"[# zzz]"` and `"[@@red zzz]"` both contain the
bracketed word `"zzz"`, which matches no style name, no `UNSET_MAP` key,
no named color and no numeric/hex color grammar, yet tokenization raises
a different error first: the hex-conversion `SyntaxError` for `"#"`
(carrying only that tag, not the full source) in the one, and the
`KeyError` from `foreground.names["@red"]` in the other — not the
unrecognized-tag error the claim asserts. -/
theorem C7_counterexample :
    findTagMatches ("[# zzz]".toList) =
      [{ start := 0, stop := 7, escapes := 0, body := "# zzz".toList }] ∧
    pySplit ("# zzz".toList) = ["#".toList, "zzz".toList] ∧
    unrecWordB ("zzz".toList) = true ∧
    (tokenize_markup ("[# zzz]".toList)).2 = some (.hexFail ("#".toList)) ∧
    (tokenize_markup ("[# zzz]".toList)).2 ≠
      some (.badTag ("zzz".toList) ("[# zzz]".toList)) ∧
    pySplit ("@@red zzz".toList) = ["@@red".toList, "zzz".toList] ∧
    (tokenize_markup ("[@@red zzz]".toList)).2 = some .keyErr ∧
    (tokenize_markup ("[@@red zzz]".toList)).2 ≠
      some (.badTag ("zzz".toList) ("[@@red zzz]".toList)) :=
  ⟨rfl, rfl, rfl, rfl, by decide, rfl, rfl, by decide⟩

/-! ## C8 (counterexample): two `;`-separated parts still select the
8-bit (`5;`) depth -/

/-- C8 counterexample: the tag `"1;2"` has two `;`-separated parts, yet
`_handle_color` selects the 8-bit `5;` depth marker (the source tests
`tag.count(";") < 2`, i.e. fewer than two semicolons, not fewer than two
parts). -/
theorem C8_counterexample :
    (splitOnChar ';' ("1;2".toList)).length = 2 ∧
    _handle_color ("1;2".toList) = .ok (some ("38;5;1;2".toList, false)) ∧
    startswith ("2;".toList) (("38;5;1;2".toList).drop 3) = false :=
  ⟨rfl, rfl, rfl⟩

/-! ## C9 (counterexample): `get_setter` can fail before any stripped
name exists -/

/-- C9 counterexample: on a crafted `Clear`-attributed token with code
`"abc"`, `to_name` itself raises (malformed color code), so `get_setter`
fails with that `SyntaxError` — not with the `ValueError` of a stripped
name missing from `NAMES`. -/
theorem C9_counterexample :
    get_setter { start := 0, stop := 0, code := some ("abc".toList), attr := some .CLEAR } =
      .error .malformedCode ∧
    to_name { start := 0, stop := 0, code := some ("abc".toList), attr := some .CLEAR } =
      .error .malformedCode ∧
    get_setter { start := 0, stop := 0, code := some ("abc".toList), attr := some .CLEAR } ≠
      .error .valErr :=
  ⟨rfl, rfl, by decide⟩

/-! ## C3: the optimizer's reset step -/

/-- C3: in `optimize_ansi`, a universal reset code token emits exactly one
reset sequence if the code buffer is nonempty at that point and is a
dropped no-op otherwise; in both cases the buffer is cleared.  In
particular `optimize_ansi("\x1b[0m")` yields the reset sequence exactly
once, with no extra leading no-op. -/
theorem C3_optimizer_reset_step :
    (∀ (st : OptState) (t : Token), t.code = some ("0".toList) →
      optimizeStep st t =
        { out := if st.sequence = [] then st.out else st.out ++ reset,
          sequence := [], previous_sequence := st.previous_sequence }) ∧
    optimize_ansi ("\x1b[0m".toList) = .ok ("\x1b[0m".toList) := by
  constructor
  · intro st t h
    rcases st with ⟨o, sq, pr⟩
    simp only [optimizeStep, h]
    by_cases hsq : sq = [] <;> simp [hsq]
  · rfl

/-- C3 witness. -/
theorem C3_witness :
    (({ start := 0, stop := 4, code := some ("0".toList), attr := some .CLEAR } : Token).code =
      some ("0".toList)) ∧
    optimizeStep { out := "A".toList, sequence := "\x1b[1m".toList, previous_sequence := none }
        { start := 0, stop := 4, code := some ("0".toList), attr := some .CLEAR } =
      { out := "A\x1b[0m".toList, sequence := [], previous_sequence := none } := by
  refine ⟨rfl, ?_⟩
  rw [C3_optimizer_reset_step.1 _ _ rfl]
  decide

/-! ## C4: reset termination -/

/-- C4: `markup_to_ansi(s, ensure_reset := true)` only ever returns
strings ending in the universal reset sequence, and so does
`optimize_ansi`. -/
theorem C4_reset_termination :
    (∀ (s : Str) (b : Bool) (r : Str),
      markup_to_ansi s true b = .ok r → endswith r reset = true) ∧
    (∀ (x r : Str), optimize_ansi x = .ok r → endswith r reset = true) := by
  have hopt : ∀ (x r : Str), optimize_ansi x = .ok r → endswith r reset = true := by
    intro x r h
    unfold optimize_ansi at h
    rcases htok : tokenize_ansi x with ⟨toks, err⟩
    rw [htok] at h
    rcases err with _ | e
    · simp only at h
      split at h
      · rename_i hcond
        injection h with h'
        rw [← h']
        exact hcond
      · injection h with h'
        rw [← h']
        exact endswith_append_self _ _
    · exact absurd h (by simp)
  refine ⟨?_, hopt⟩
  intro s b r h
  unfold markup_to_ansi at h
  rcases htok : tokenize_markup s with ⟨toks, err⟩
  rw [htok] at h
  rcases err with _ | e
  · simp only at h
    rcases b with _ | _
    · simp only [Bool.false_eq_true, if_false] at h
      injection h with h'
      rw [← h']
      split
      · rename_i hcond
        exact endswith_append_self _ _
      · rename_i hcond
        simp only [Bool.true_and, Bool.not_eq_true', Bool.not_eq_false] at hcond
        exact hcond
    · simp only [if_true] at h
      exact hopt _ _ h
  · exact absurd h (by simp)

/-- C4 witness. -/
theorem C4_witness :
    markup_to_ansi ("hi".toList) true false = .ok ("hi\x1b[0m".toList) ∧
    endswith ("hi\x1b[0m".toList) reset = true ∧
    optimize_ansi [] = .ok reset ∧
    endswith reset reset = true :=
  ⟨rfl, C4_reset_termination.1 ("hi".toList) false ("hi\x1b[0m".toList) rfl, rfl,
   C4_reset_termination.2 [] reset rfl⟩

/-! ## C2: the ANSI tokenizer never yields two adjacent equal codes -/

/-- No two adjacent `Code` tokens with equal codes, relative to the code
of the previously yielded token. -/
def noAdjDupFrom : Option Str → List Token → Prop
  | _, [] => True
  | pc, t :: ts => (∀ c, pc = some c → ¬ t.code = some c) ∧ noAdjDupFrom t.code ts

theorem tokAnsiAux_adj (text : Str) :
    ∀ (ms : List AnsiMatch) (pos s e : Nat) (prev : Option Token),
      noAdjDupFrom (prev.bind Token.code) (tokAnsiAux text ms pos s e prev).1 := by
  intro ms
  induction ms with
  | nil =>
    intro pos s e prev
    simp only [tokAnsiAux]
    split
    · exact ⟨fun c _ h => (by cases h), trivial⟩
    · trivial
  | cons m ms ih =>
    intro pos s e prev
    rcases m with ⟨mstart, mstop, msgr, mosc⟩
    by_cases hp : pos < mstart
    · rcases msgr with _ | sgr
      · simp only [tokAnsiAux, hp, if_true]
        exact ⟨fun c _ h => (by cases h), trivial⟩
      · simp only [tokAnsiAux, hp, if_true]
        refine ⟨fun c _ h => (by cases h), fun c h => (by cases h), ?_⟩
        exact ih mstop mstart mstop (some _)
    · rcases msgr with _ | sgr
      · simp only [tokAnsiAux, hp, if_false]
        trivial
      · rcases prev with _ | p
        · simp only [tokAnsiAux, hp, if_false, Option.bind]
          refine ⟨fun c h => (by cases h), ?_⟩
          exact ih mstop mstart mstop (some _)
        · by_cases hc : p.code = some sgr
          · simp only [tokAnsiAux, hp, if_false, hc, if_true]
            exact ih mstop mstart mstop (some p)
          · simp only [tokAnsiAux, hp, if_false, hc, if_false]
            refine ⟨?_, ?_⟩
            · intro c hpc htokc
              simp only [Option.bind] at hpc
              apply hc
              rw [hpc]
              simp only [Token.code] at htokc
              rw [← htokc]
            · exact ih mstop mstart mstop (some _)

theorem noAdjDupFrom_get :
    ∀ (l : List Token) (pc : Option Str), noAdjDupFrom pc l →
      ∀ (i : Nat) (t₁ t₂ : Token) (c : Str), l.get? i = some t₁ →
        l.get? (i + 1) = some t₂ → t₁.code = some c → ¬ t₂.code = some c := by
  intro l
  induction l with
  | nil => intro pc _ i t₁ t₂ c h1; simp at h1
  | cons t ts ih =>
    intro pc hnd i t₁ t₂ c h1 h2 hc
    cases i with
    | zero =>
      simp only [List.get?] at h1 h2
      injection h1 with h1
      subst h1
      cases ts with
      | nil => simp at h2
      | cons u us =>
        simp only [List.get?] at h2
        injection h2 with h2
        subst h2
        exact hnd.2.1 c hc
    | succ j =>
      simp only [List.get?] at h1 h2
      exact ih t.code hnd.2 j t₁ t₂ c h1 h2 hc

/-- C2: for every input string, `tokenize_ansi` never yields two
consecutive `Code` tokens with equal code values — an SGR sequence whose
code equals the code of the immediately preceding emitted token is
suppressed at lex time. -/
theorem C2_no_adjacent_duplicate_codes (text : Str) (i : Nat) (t₁ t₂ : Token) (c : Str) :
    (tokenize_ansi text).1.get? i = some t₁ →
    (tokenize_ansi text).1.get? (i + 1) = some t₂ →
    t₁.code = some c → ¬ t₂.code = some c := by
  intro h1 h2 hc
  exact noAdjDupFrom_get _ none (tokAnsiAux_adj text (findAnsiMatches text) 0 0 0 none)
    i t₁ t₂ c h1 h2 hc

/-- C2 witness. -/
theorem C2_witness :
    (tokenize_ansi ("\x1b[1m\x1b[2m".toList)).1.get? 0 =
      some { start := 0, stop := 4, code := some ("1".toList), attr := some .STYLE } ∧
    (tokenize_ansi ("\x1b[1m\x1b[2m".toList)).1.get? 1 =
      some { start := 4, stop := 8, code := some ("2".toList), attr := some .STYLE } ∧
    ({ start := 0, stop := 4, code := some ("1".toList), attr := some .STYLE } : Token).code =
      some ("1".toList) ∧
    ¬ ({ start := 4, stop := 8, code := some ("2".toList), attr := some .STYLE } : Token).code =
      some ("1".toList) :=
  ⟨rfl, rfl, rfl,
   C2_no_adjacent_duplicate_codes ("\x1b[1m\x1b[2m".toList) 0 _ _ _ rfl rfl rfl⟩

/-! ## C8: color resolution -/

theorem startswith_append_self (p r : Str) : startswith p (p ++ r) = true := by
  induction p with
  | nil => rfl
  | cons c cs ih => simp [startswith, ih]

theorem drop3_append48 (x : Str) : (("48;".toList) ++ x).drop 3 = x := rfl

theorem drop3_append38 (x : Str) : (("38;".toList) ++ x).drop 3 = x := rfl

/-- C8 (amended): for a color-candidate tag, `_handle_color` strips a
leading `@` (recording the background flag), prefixes `48;`/`38;`
accordingly, and selects `5;` exactly when the stripped tag has fewer than
two `;` characters and is not hex — raising instead of returning when a
hex tag fails translation; a non-candidate tag resolves to no color. -/
theorem C8_color_resolution :
    (∀ tag : Str, ¬ tag.all isColorChar = true → _handle_color tag = .ok none) ∧
    (∀ (tag frag : Str) (bg : Bool), _handle_color tag = .ok (some (frag, bg)) →
      bg = decide (tag.head? = some '@') ∧
      startswith (if bg then "48;".toList else "38;".toList) frag = true ∧
      startswith
        (if countCh ';' (if tag.head? = some '@' then tag.drop 1 else tag) < 2 ∧
            ¬ (if tag.head? = some '@' then tag.drop 1 else tag).head? = some '#'
         then "5;".toList else "2;".toList)
        (frag.drop 3) = true) ∧
    (∀ tag : Str, tag.all isColorChar = true →
      (if tag.head? = some '@' then tag.drop 1 else tag).head? = some '#' →
      translate_hex (if tag.head? = some '@' then tag.drop 1 else tag) = none →
      _handle_color tag = .error (.hexFail (if tag.head? = some '@' then tag.drop 1 else tag))) := by
  refine ⟨?_, ?_, ?_⟩
  · intro tag h
    have hall : tag.all isColorChar = false := by
      revert h; cases tag.all isColorChar <;> simp
    simp [_handle_color, hall]
  · intro tag frag bg h
    by_cases hall : tag.all isColorChar = true
    · simp only [_handle_color, hall, Bool.not_true, Bool.false_eq_true, if_false] at h
      by_cases hat : tag.head? = some '@'
      · rw [if_pos hat, if_pos hat, decide_eq_true hat] at h
        rw [if_pos hat]
        by_cases hhex : (tag.drop 1).head? = some '#'
        · rw [if_pos hhex] at h
          rcases htr : translate_hex (tag.drop 1) with _ | ⟨r, g, b⟩
          · rw [htr] at h; cases h
          · rw [htr, if_neg (fun hand => hand.2 hhex)] at h
            injection h with h
            injection h with h
            rw [Prod.mk.injEq] at h
            obtain ⟨hf, hb⟩ := h
            subst hb
            refine ⟨(decide_eq_true hat).symm, ?_, ?_⟩
            · show startswith ("48;".toList) frag = true
              rw [← hf, List.append_assoc]
              exact startswith_append_self _ _
            · rw [if_neg (fun hand => hand.2 hhex), ← hf, List.append_assoc, drop3_append48]
              exact startswith_append_self _ _
        · rw [if_neg hhex] at h
          injection h with h
          injection h with h
          rw [Prod.mk.injEq] at h
          obtain ⟨hf, hb⟩ := h
          subst hb
          refine ⟨(decide_eq_true hat).symm, ?_, ?_⟩
          · show startswith ("48;".toList) frag = true
            rw [← hf, List.append_assoc]
            exact startswith_append_self _ _
          · rw [← hf, List.append_assoc, drop3_append48]
            exact startswith_append_self _ _
      · rw [if_neg hat, if_neg hat, decide_eq_false hat] at h
        rw [if_neg hat]
        by_cases hhex : tag.head? = some '#'
        · rw [if_pos hhex] at h
          rcases htr : translate_hex tag with _ | ⟨r, g, b⟩
          · rw [htr] at h; cases h
          · rw [htr, if_neg (fun hand => hand.2 hhex)] at h
            injection h with h
            injection h with h
            rw [Prod.mk.injEq] at h
            obtain ⟨hf, hb⟩ := h
            subst hb
            refine ⟨(decide_eq_false hat).symm, ?_, ?_⟩
            · show startswith ("38;".toList) frag = true
              rw [← hf, List.append_assoc]
              exact startswith_append_self _ _
            · rw [if_neg (fun hand => hand.2 hhex), ← hf, List.append_assoc, drop3_append38]
              exact startswith_append_self _ _
        · rw [if_neg hhex] at h
          injection h with h
          injection h with h
          rw [Prod.mk.injEq] at h
          obtain ⟨hf, hb⟩ := h
          subst hb
          refine ⟨(decide_eq_false hat).symm, ?_, ?_⟩
          · show startswith ("38;".toList) frag = true
            rw [← hf, List.append_assoc]
            exact startswith_append_self _ _
          · rw [← hf, List.append_assoc, drop3_append38]
            exact startswith_append_self _ _
    · have hallf : tag.all isColorChar = false := by
        revert hall; cases tag.all isColorChar <;> simp
      simp only [_handle_color, hallf, Bool.not_false, if_true] at h
      cases h
  · intro tag hall hhex htr
    simp only [_handle_color, hall, Bool.not_true, Bool.false_eq_true, if_false]
    by_cases hat : tag.head? = some '@'
    · rw [if_pos hat] at hhex htr
      rw [if_pos hat, if_pos hat, if_pos hhex, htr]
    · rw [if_neg hat] at hhex htr
      rw [if_neg hat, if_neg hat, if_pos hhex, htr]

/-- C8 witness. -/
theorem C8_witness :
    _handle_color ("x".toList) = .ok none ∧
    startswith ("48;".toList) ("48;5;141".toList) = true ∧
    _handle_color ("#".toList) = .error (.hexFail ("#".toList)) := by
  refine ⟨C8_color_resolution.1 ("x".toList) (by decide), ?_, ?_⟩
  · have h := (C8_color_resolution.2.1 ("@141".toList) ("48;5;141".toList) true) rfl
    have h2 := h.2.1
    simpa using h2
  · have h := C8_color_resolution.2.2 ("#".toList) (by decide) (by decide) (by decide)
    simpa using h

/-! ## C9: `get_setter` -/

theorem names_drop_not : ∀ nm ∈ NAMES, ¬ nm.drop 1 ∈ NAMES := by decide

theorem fg_drop_not : ∀ p ∈ foreground_names,
    ¬ p.1.drop 1 ∈ NAMES ∧ ¬ ('@' :: p.1).drop 1 ∈ NAMES := by decide

theorem names_have_special : ∀ nm ∈ NAMES, ∃ c ∈ nm, ¬ (c.isDigit = true ∨ c = ';') := by
  decide

theorem isdigitStr_mem {p : Str} (hp : isdigitStr p = true) : ∀ c ∈ p, c.isDigit = true := by
  intro c hc
  simp only [isdigitStr, Bool.and_eq_true, List.all_eq_true] at hp
  exact hp.2 c hc

theorem joinSep_chars : ∀ L : List Str, (∀ p ∈ L, isdigitStr p = true) →
    ∀ c ∈ joinSep ';' L, c.isDigit = true ∨ c = ';' := by
  intro L
  induction L with
  | nil => intro _ c hc; simp [joinSep] at hc
  | cons p L ih =>
    cases L with
    | nil =>
      intro hall c hc
      simp only [joinSep] at hc
      exact Or.inl (isdigitStr_mem (hall p (by simp)) c hc)
    | cons q r =>
      intro hall c hc
      simp only [joinSep] at hc
      rw [List.mem_append] at hc
      rcases hc with hc | hc
      · exact Or.inl (isdigitStr_mem (hall p (by simp)) c hc)
      · rcases List.mem_cons.mp hc with rfl | hc
        · exact Or.inr rfl
        · exact ih (fun x hx => hall x (List.mem_cons_of_mem p hx)) c hc

theorem not_names_of_chars {s : Str} (h : ∀ c ∈ s, c.isDigit = true ∨ c = ';') :
    ¬ s ∈ NAMES := by
  intro hmem
  obtain ⟨c, hc, hnc⟩ := names_have_special s hmem
  exact hnc (h c hc)

theorem findByVal_mem {v : Str} {q : Str × Str} :
    ∀ {L : List (Str × Str)}, findByVal v L = some q → q ∈ L ∧ q.2 = v := by
  intro L
  induction L with
  | nil => intro h; cases h
  | cons p ps ih =>
    intro h
    by_cases hv : p.2 = v
    · simp only [findByVal, if_pos hv] at h
      injection h with h
      subst h
      exact ⟨List.mem_cons_self _ _, hv⟩
    · simp only [findByVal, if_neg hv] at h
      obtain ⟨hm, he⟩ := ih h
      exact ⟨List.mem_cons_of_mem _ hm, he⟩

theorem findByNatVal_mem {v : Nat} {q : Str × Nat} :
    ∀ {L : List (Str × Nat)}, findByNatVal v L = some q → q ∈ L ∧ q.2 = v := by
  intro L
  induction L with
  | nil => intro h; cases h
  | cons p ps ih =>
    intro h
    by_cases hv : p.2 = v
    · simp only [findByNatVal, if_pos hv] at h
      injection h with h
      subst h
      exact ⟨List.mem_cons_self _ _, hv⟩
    · simp only [findByNatVal, if_neg hv] at h
      obtain ⟨hm, he⟩ := ih h
      exact ⟨List.mem_cons_of_mem _ hm, he⟩

theorem getD_mem {l : List Str} {n : Nat} (h : n < l.length) : l.getD n [] ∈ l := by
  induction l generalizing n with
  | nil => simp at h
  | cons a as ih =>
    cases n with
    | zero => exact List.mem_cons_self _ _
    | succ m => exact List.mem_cons_of_mem _ (ih (Nat.lt_of_succ_lt_succ h))

/-- If `to_name` succeeds on a code token and the result with its first
character stripped is a style name, then the code was a digit string found
among the `UNSET_MAP` values, and the name is the first matching unset
key. -/
theorem to_name_drop1 {t : Token} {code nm : Str}
    (hp : t.plain = none) (hc : t.code = some code)
    (hn : to_name t = .ok nm) (hd : nm.drop 1 ∈ NAMES) :
    isdigitStr code = true ∧ ∃ q, findByVal code UNSET_MAP = some q ∧ nm = q.1 := by
  simp only [to_name, hp, hc] at hn
  by_cases hdig : isdigitStr code = true
  · rw [if_pos hdig] at hn
    split at hn
    · rename_i p hfv
      injection hn with hn
      exact ⟨hdig, p, hfv, hn.symm⟩
    · split at hn
      · rename_i hlt
        injection hn with hn
        subst hn
        exact absurd hd (names_drop_not _ (getD_mem hlt))
      · cases hn
  · rw [if_neg hdig] at hn
    have hparts : ∀ (out : Str), out = [] ∨ out = "@".toList →
        ∀ L : List Str, (∀ p ∈ L, isdigitStr p = true) →
        ¬ (out ++ joinSep ';' L).drop 1 ∈ NAMES := by
      intro out hout L hL
      have hchars := joinSep_chars L hL
      rcases hout with rfl | rfl
      · simp only [List.nil_append]
        exact not_names_of_chars (fun c hc2 => hchars c (List.drop_subset _ _ hc2))
      · exact not_names_of_chars hchars
    split at hn
    · cases hn
    · split at hn
      · cases hn
      · rename_i hlen hall
        have halld : ∀ p ∈ (splitOnChar ';' code).drop 2, isdigitStr p = true := by
          intro p hp2
          have hall2 : (splitOnChar ';' code).all isdigitStr = true := by
            revert hall
            cases (splitOnChar ';' code).all isdigitStr <;> simp
          exact List.all_eq_true.mp hall2 p (List.drop_subset _ _ hp2)
        split at hn
        · split at hn
          · rename_i q hfnv
            injection hn with hn
            subst hn
            obtain ⟨hqm, _⟩ := findByNatVal_mem hfnv
            by_cases hout : (splitOnChar ';' code).head? = some ("48".toList)
            · rw [if_pos hout] at hd
              exact absurd hd (fg_drop_not q hqm).2
            · rw [if_neg hout] at hd
              rw [List.nil_append] at hd
              exact absurd hd (fg_drop_not q hqm).1
          · injection hn with hn
            subst hn
            by_cases hout : (splitOnChar ';' code).head? = some ("48".toList)
            · rw [if_pos hout] at hd
              exact absurd hd (hparts _ (Or.inr rfl) _ halld)
            · rw [if_neg hout] at hd
              exact absurd hd (hparts _ (Or.inl rfl) _ halld)
        · injection hn with hn
          subst hn
          by_cases hout : (splitOnChar ';' code).head? = some ("48".toList)
          · rw [if_pos hout] at hd
            exact absurd hd (hparts _ (Or.inr rfl) _ halld)
          · rw [if_neg hout] at hd
            exact absurd hd (hparts _ (Or.inl rfl) _ halld)

/-- C9 (amended): `get_setter` returns a value only for `Clear`-attributed
code tokens whose code is a known unsetter value other than `"0"` — the
value being the `NAMES` index of the corresponding style, as a string; for
code `"0"` and for names `/fg`/`/bg` it returns no value rather than
erroring; and it fails only when the name computation itself raises or the
stripped name is not a style name in `NAMES`. -/
theorem C9_get_setter :
    (∀ (t : Token) (v : Str), get_setter t = .ok (some v) →
      t.attr = some .CLEAR ∧
      ∃ c, t.code = some c ∧ ¬ c = "0".toList ∧ c ∈ UNSET_MAP.map Prod.snd ∧
        ∃ nm, to_name t = .ok nm ∧ nm.drop 1 ∈ NAMES ∧
          v = natToStr (idxOf (nm.drop 1) NAMES)) ∧
    (∀ t : Token, t.plain = none → t.attr = some .CLEAR →
      t.code = some ("0".toList) → get_setter t = .ok none) ∧
    (∀ (t : Token) (nm : Str), t.plain = none → t.attr = some .CLEAR →
      ¬ t.code = some ("0".toList) → to_name t = .ok nm →
      (nm = "/fg".toList ∨ nm = "/bg".toList) → get_setter t = .ok none) ∧
    (∀ (t : Token) (e : PErr), get_setter t = .error e →
      (∃ e2, to_name t = .error e2) ∨
      (∃ nm, to_name t = .ok nm ∧ ¬ nm.drop 1 ∈ NAMES ∧ e = .valErr)) := by
  refine ⟨?_, ?_, ?_, ?_⟩
  · intro t v h
    simp only [get_setter] at h
    split at h
    · exact absurd h (by simp)
    · rename_i h1
      push_neg at h1
      split at h
      · exact absurd h (by simp)
      · rename_i h2
        split at h
        · cases h
        · rename_i nm hname
          split at h
          · exact absurd h (by simp)
          · rename_i h3
            split at h
            · rename_i h4
              injection h with h
              injection h with h
              have hplain : t.plain = none := by
                rcases hpl : t.plain with _ | p
                · rfl
                · rw [hpl] at h1
                  exact absurd rfl h1.1
              rcases hcode : t.code with _ | c
              · simp only [to_name, hplain, hcode] at hname
                cases hname
              · obtain ⟨hdig, q, hfv, hnmq⟩ := to_name_drop1 hplain hcode hname h4
                obtain ⟨hqm, hq2⟩ := findByVal_mem hfv
                refine ⟨h1.2, c, rfl, ?_, ?_, nm, hname, h4, h.symm⟩
                · intro hc0
                  exact h2 (by rw [hcode, hc0])
                · exact List.mem_map.mpr ⟨q, hqm, hq2⟩
            · cases h
  · intro t hp ha hc
    simp only [get_setter, hp, ha, hc]
    simp
  · intro t nm hp ha hc hname hfg
    have h1 : ¬ (t.plain.isSome = true ∨ ¬ t.attr = some TokenAttribute.CLEAR) := by
      simp [hp, ha]
    rcases hfg with rfl | rfl
    · simp [get_setter, h1, hc, hname]
    · simp [get_setter, h1, hc, hname]
  · intro t e h
    simp only [get_setter] at h
    split at h
    · cases h
    · rename_i h1
      split at h
      · cases h
      · rename_i h2
        split at h
        · rename_i e2 hname
          injection h with h
          exact Or.inl ⟨e2, hname⟩
        · rename_i nm hname
          split at h
          · cases h
          · rename_i h3
            split at h
            · cases h
            · rename_i h4
              injection h with h
              exact Or.inr ⟨nm, hname, h4, h.symm⟩

/-- C9 witness. -/
theorem C9_witness :
    get_setter { start := 0, stop := 0, code := some ("22".toList), attr := some .CLEAR } =
      .ok (some ("1".toList)) ∧
    ({ start := 0, stop := 0, code := some ("22".toList), attr := some .CLEAR } : Token).attr =
      some .CLEAR ∧
    get_setter { start := 0, stop := 0, code := some ("0".toList), attr := some .CLEAR } =
      .ok none ∧
    get_setter { start := 0, stop := 0, code := some ("39".toList), attr := some .CLEAR } =
      .ok none := by
  refine ⟨rfl, ?_, ?_, ?_⟩
  · exact (C9_get_setter.1
      { start := 0, stop := 0, code := some ("22".toList), attr := some .CLEAR }
      ("1".toList) rfl).1
  · exact C9_get_setter.2.1 _ rfl rfl rfl
  · exact C9_get_setter.2.2.1 _ ("/fg".toList) rfl rfl (by decide) rfl (Or.inl rfl)

/-! ## C7: unrecognized markup tags -/

theorem handleTag_ok {w : Str} (h : wordOkB w = true) (s e : Nat) (text : Str) :
    ∃ t, handleTag s e text w = .ok t := by
  by_cases h1 : w ∈ NAMES
  · exact ⟨_, by rw [handleTag, if_pos h1]⟩
  · rcases hl : lookupStr w UNSET_MAP with _ | v
    · rcases hnc : _handle_named_color w with e1 | r
      · exfalso
        have hw : wordOkB w = false := by simp [wordOkB, h1, hl, hnc]
        rw [h] at hw
        cases hw
      · rcases r with _ | p
        · rcases hcc : _handle_color w with e1 | r2
          · exfalso
            have hw : wordOkB w = false := by simp [wordOkB, h1, hl, hnc, hcc]
            rw [h] at hw
            cases hw
          · rcases r2 with _ | p2
            · exfalso
              have hw : wordOkB w = false := by simp [wordOkB, h1, hl, hnc, hcc]
              rw [h] at hw
              cases hw
            · obtain ⟨color, bg⟩ := p2
              exact ⟨_, by rw [handleTag, if_neg h1, hl, hnc, hcc]⟩
        · obtain ⟨color, bg⟩ := p
          exact ⟨_, by rw [handleTag, if_neg h1, hl, hnc]⟩
    · exact ⟨_, by rw [handleTag, if_neg h1, hl]⟩

theorem handleTag_err {w : Str} (h : unrecWordB w = true) (s e : Nat) (text : Str) :
    handleTag s e text w = .error (.badTag w text) := by
  simp only [unrecWordB, Bool.and_eq_true, decide_eq_true_eq] at h
  obtain ⟨⟨⟨hn, hl⟩, hnc⟩, hcc⟩ := h
  rw [Option.isNone_iff_eq_none] at hl
  rw [handleTag, if_neg hn, hl, hnc, hcc]

theorem processWords_ok (text : Str) :
    ∀ (ws : List Str) (s e : Nat), (∀ w ∈ ws, wordOkB w = true) →
      (processWords s e text ws).2 = none := by
  intro ws
  induction ws with
  | nil => intro s e _; rfl
  | cons w ws ih =>
    intro s e hall
    obtain ⟨t, ht⟩ := handleTag_ok (hall w (List.mem_cons_self _ _)) s e text
    simp only [processWords, ht]
    exact ih s e (fun x hx => hall x (List.mem_cons_of_mem _ hx))

theorem processWords_err (text : Str) :
    ∀ (ws : List Str) (s e : Nat),
      (∀ w ∈ ws, wordOkB w = true ∨ unrecWordB w = true) →
      (∃ w ∈ ws, unrecWordB w = true) →
      ∃ w, unrecWordB w = true ∧
        (processWords s e text ws).2 = some (.badTag w text) := by
  intro ws
  induction ws with
  | nil =>
    intro s e _ hex
    obtain ⟨w, hw, _⟩ := hex
    cases hw
  | cons w ws ih =>
    intro s e hall hex
    by_cases hu : unrecWordB w = true
    · refine ⟨w, hu, ?_⟩
      simp only [processWords, handleTag_err hu]
    · have hok : wordOkB w = true := by
        rcases hall w (List.mem_cons_self _ _) with h | h
        · exact h
        · exact absurd h hu
      obtain ⟨t, ht⟩ := handleTag_ok hok s e text
      have hex2 : ∃ w2 ∈ ws, unrecWordB w2 = true := by
        obtain ⟨w2, hw2, hu2⟩ := hex
        rcases List.mem_cons.mp hw2 with rfl | hw2
        · exact absurd hu2 hu
        · exact ⟨w2, hw2, hu2⟩
      obtain ⟨w2, hu2, hp⟩ := ih s e (fun x hx => hall x (List.mem_cons_of_mem _ hx)) hex2
      refine ⟨w2, hu2, ?_⟩
      simp only [processWords, ht]
      exact hp

theorem tokMarkupAux_err (text : Str) :
    ∀ (ms : List TagMatch) (pos s e : Nat),
      (∀ m ∈ ms, m.escapes = 0 →
        ∀ w ∈ pySplit m.body, wordOkB w = true ∨ unrecWordB w = true) →
      (∃ m ∈ ms, m.escapes = 0 ∧ ∃ w ∈ pySplit m.body, unrecWordB w = true) →
      ∃ w, unrecWordB w = true ∧
        (tokMarkupAux text ms pos s e).2 = some (.badTag w text) := by
  intro ms
  induction ms with
  | nil =>
    intro pos s e _ hex
    obtain ⟨m, hm, _⟩ := hex
    cases hm
  | cons m ms ih =>
    intro pos s e hall hex
    have hall2 : ∀ m2 ∈ ms, m2.escapes = 0 →
        ∀ w ∈ pySplit m2.body, wordOkB w = true ∨ unrecWordB w = true :=
      fun m2 hm2 => hall m2 (List.mem_cons_of_mem _ hm2)
    by_cases hesc : m.escapes ≠ 0
    · have hex2 : ∃ m2 ∈ ms, m2.escapes = 0 ∧ ∃ w ∈ pySplit m2.body, unrecWordB w = true := by
        obtain ⟨m2, hm2, h0, hw⟩ := hex
        rcases List.mem_cons.mp hm2 with rfl | hm2
        · exact absurd h0 hesc
        · exact ⟨m2, hm2, h0, hw⟩
      obtain ⟨w, hu, hp⟩ := ih m.stop m.start m.stop hall2 hex2
      refine ⟨w, hu, ?_⟩
      simp only [tokMarkupAux, if_pos hesc]
      exact hp
    · have h0 : m.escapes = 0 := not_ne_iff.mp hesc
      have hwall := hall m (List.mem_cons_self _ _) h0
      by_cases hwx : ∃ w ∈ pySplit m.body, unrecWordB w = true
      · obtain ⟨w, hu, hp⟩ := processWords_err text (pySplit m.body) m.start m.stop hwall hwx
        refine ⟨w, hu, ?_⟩
        simp only [tokMarkupAux, if_neg hesc, hp]
      · have hpw : (processWords m.start m.stop text (pySplit m.body)).2 = none :=
          processWords_ok text (pySplit m.body) m.start m.stop
            (fun w hw => (hwall w hw).resolve_right (fun hu => hwx ⟨w, hw, hu⟩))
        have hex2 : ∃ m2 ∈ ms, m2.escapes = 0 ∧ ∃ w ∈ pySplit m2.body, unrecWordB w = true := by
          obtain ⟨m2, hm2, h02, hw⟩ := hex
          rcases List.mem_cons.mp hm2 with rfl | hm2
          · exact absurd hw hwx
          · exact ⟨m2, hm2, h02, hw⟩
        obtain ⟨w, hu, hp⟩ := ih m.stop m.start m.stop hall2 hex2
        refine ⟨w, hu, ?_⟩
        simp only [tokMarkupAux, if_neg hesc, hpw]
        exact hp

/-- C7 (amended): when an unescaped markup bracket contains a word that
matches no style name, no `UNSET_MAP` key, no named color and no
numeric/hex color grammar (`unrecWordB`), and every unescaped bracketed
word is either accepted by one of those four interpretations (`wordOkB`)
or unrecognized in that same non-raising sense — so no bracketed word
itself raises, ruling out malformed hex candidates and `@@`-prefixed
named colors — then `tokenize_markup` raises the unrecognized-tag
`SyntaxError` carrying the offending tag and the full source string; the
whole conversion call fails and no partial output is returned. -/
theorem C7_unrecognized_tag_error (text : Str) :
    (∀ m ∈ findTagMatches text, m.escapes = 0 →
      ∀ w ∈ pySplit m.body, wordOkB w = true ∨ unrecWordB w = true) →
    (∃ m ∈ findTagMatches text, m.escapes = 0 ∧
      ∃ w ∈ pySplit m.body, unrecWordB w = true) →
    ∃ w, unrecWordB w = true ∧
      (tokenize_markup text).2 = some (.badTag w text) ∧
      ∀ (er eo : Bool), markup_to_ansi text er eo = .error (.badTag w text) := by
  intro hall hex
  obtain ⟨w, hu, hp⟩ := tokMarkupAux_err text (findTagMatches text) 0 0 0 hall hex
  have hp2 : (tokenize_markup text).2 = some (.badTag w text) := hp
  refine ⟨w, hu, hp2, ?_⟩
  intro er eo
  unfold markup_to_ansi
  rcases htm : tokenize_markup text with ⟨toks, err⟩
  rw [htm] at hp2
  have hp3 : err = some (.badTag w text) := hp2
  rw [hp3]

/-- C7 witness. -/
theorem C7_witness :
    (∀ m ∈ findTagMatches ("[unknowntag]".toList), m.escapes = 0 →
      ∀ w ∈ pySplit m.body, wordOkB w = true ∨ unrecWordB w = true) ∧
    (∃ m ∈ findTagMatches ("[unknowntag]".toList), m.escapes = 0 ∧
      ∃ w ∈ pySplit m.body, unrecWordB w = true) ∧
    ∃ w, unrecWordB w = true ∧
      (tokenize_markup ("[unknowntag]".toList)).2 =
        some (.badTag w ("[unknowntag]".toList)) ∧
      ∀ (er eo : Bool), markup_to_ansi ("[unknowntag]".toList) er eo =
        .error (.badTag w ("[unknowntag]".toList)) :=
  ⟨by decide, by decide, C7_unrecognized_tag_error _ (by decide) (by decide)⟩

/-! ## C1 (amended): idempotence on escape-free inputs -/

theorem matchAnsiAt_none (c : Char) (cs : Str) (hc : ¬ c = '\x1b') :
    matchAnsiAt (c :: cs) = none := by
  cases cs with
  | nil => rfl
  | cons c2 cs2 => simp [matchAnsiAt, hc]

theorem findF_noEsc :
    ∀ (t : Str) (f i : Nat), (∀ c ∈ t, ¬ c = '\x1b') → findAnsiMatchesF f t i = [] := by
  intro t
  induction t with
  | nil => intro f i _; cases f <;> rfl
  | cons c cs ih =>
    intro f i hesc
    cases f with
    | zero => rfl
    | succ f2 =>
      simp only [findAnsiMatchesF]
      rw [matchAnsiAt_none c _ (hesc c (List.mem_cons_self _ _))]
      exact ih f2 (i + 1) (fun d hd => hesc d (List.mem_cons_of_mem _ hd))

theorem findF_reset :
    ∀ (t : Str) (f i : Nat), (∀ c ∈ t, ¬ c = '\x1b') → t.length + 4 ≤ f →
      findAnsiMatchesF f (t ++ reset) i =
        [{ start := i + t.length, stop := i + t.length + 4, sgr := some ("0".toList),
           osc := none }] := by
  intro t
  induction t with
  | nil =>
    intro f i _ hf
    cases f with
    | zero => exact absurd hf (by omega)
    | succ f2 =>
      have h1 : findAnsiMatchesF (f2 + 1) (([] : Str) ++ reset) i =
          { start := i, stop := i + 4, sgr := some ("0".toList), osc := none } ::
            findAnsiMatchesF f2 [] (i + 4) := rfl
      rw [h1]
      cases f2 <;> simp [findAnsiMatchesF]
  | cons c cs ih =>
    intro f i hesc hf
    cases f with
    | zero => exact absurd hf (by omega)
    | succ f2 =>
      have hc : ¬ c = '\x1b' := hesc c (List.mem_cons_self _ _)
      show findAnsiMatchesF (f2 + 1) (c :: (cs ++ reset)) i = _
      simp only [findAnsiMatchesF]
      rw [matchAnsiAt_none c _ hc]
      show findAnsiMatchesF f2 (cs ++ reset) (i + 1) = _
      rw [ih f2 (i + 1) (fun d hd => hesc d (List.mem_cons_of_mem _ hd))
        (by simp only [List.length_cons] at hf; omega)]
      have harith : i + 1 + cs.length = i + (c :: cs).length := by
        simp only [List.length_cons]; omega
      rw [harith]

theorem esc_mem_of_endswith {l : Str} (h : endswith l reset = true) : '\x1b' ∈ l := by
  have hs := endswith_true_suffix h
  exact hs.subset (by decide)

theorem endswith_reset_false {l : Str} (h : ¬ '\x1b' ∈ l) : endswith l reset = false := by
  cases hee : endswith l reset
  · rfl
  · exact absurd (esc_mem_of_endswith hee) h

/-- C1 (amended): on strings containing no ESC character the optimizer
appends exactly one reset, and the result is a fixed point, so
`optimize_ansi (optimize_ansi x) = optimize_ansi x` there. -/
theorem C1_amended_idempotent (x : Str) (h : ¬ '\x1b' ∈ x) :
    optimize_ansi x = .ok (x ++ reset) ∧ optimize_ansi (x ++ reset) = .ok (x ++ reset) := by
  have hne : ∀ c ∈ x, ¬ c = '\x1b' := fun c hc heq => h (heq ▸ hc)
  have hnoend : endswith x reset = false := endswith_reset_false h
  rcases hx : x with _ | ⟨c, cs⟩
  · constructor
    · rfl
    · rfl
  · rw [← hx]
    have hxlen : 0 < x.length := by rw [hx]; simp
    have htok1 : tokenize_ansi x =
        ([{ start := 0, stop := 0, plain := some x, code := none, attr := none }], none) := by
      unfold tokenize_ansi findAnsiMatches
      rw [findF_noEsc x x.length 0 hne]
      simp only [tokAnsiAux, if_pos hxlen]
      simp [pySlice]
    have hf4 : x.length + 4 ≤ (x ++ reset).length := by
      simp [List.length_append, reset]
    have htok2 : tokenize_ansi (x ++ reset) =
        ([{ start := x.length, stop := x.length + 4, plain := some x, code := none,
            attr := none },
          { start := x.length, stop := x.length + 4, plain := none,
            code := some ("0".toList), attr := some .CLEAR }], none) := by
      unfold tokenize_ansi findAnsiMatches
      rw [findF_reset x (x ++ reset).length 0 hne hf4]
      simp only [Nat.zero_add, tokAnsiAux, if_pos hxlen]
      have hsl : pySlice (x ++ reset) 0 x.length = x := by
        simp [pySlice, List.take_left]
      rw [hsl]
      have hko : ¬ x.length + 4 < (x ++ reset).length := by
        simp [List.length_append, reset]
      simp only [if_neg hko]
      rfl
    constructor
    · unfold optimize_ansi
      rw [htok1]
      show Except.ok (if endswith ((([] : Str) ++ []) ++ x) reset then (([] : Str) ++ []) ++ x
        else ((([] : Str) ++ []) ++ x) ++ reset) = Except.ok (x ++ reset)
      simp [hnoend]
    · unfold optimize_ansi
      rw [htok2]
      show Except.ok (if endswith ((([] : Str) ++ []) ++ x) reset then (([] : Str) ++ []) ++ x
        else ((([] : Str) ++ []) ++ x) ++ reset) = Except.ok (x ++ reset)
      simp [hnoend]

/-- C1 witness. -/
theorem C1_witness :
    (¬ '\x1b' ∈ ("hi".toList)) ∧
    optimize_ansi ("hi".toList) = .ok ("hi".toList ++ reset) ∧
    optimize_ansi ("hi".toList ++ reset) = .ok ("hi".toList ++ reset) :=
  ⟨by decide, (C1_amended_idempotent ("hi".toList) (by decide)).1,
   (C1_amended_idempotent ("hi".toList) (by decide)).2⟩
